/-
Verification of the nshapes cube-viewer geometry core against its
specification.  The Rust source (src/lib.rs) is shallowly embedded:
`f32` arithmetic is idealised as exact arithmetic (`ℝ` for the
trigonometric pipeline, `ℚ` for the cursor arithmetic so that the
definitions remain executable); Rust's `%` on floats is the truncated
remainder (sign of the dividend), embedded as `fpRem` below.
-/
import Mathlib

open Real

noncomputable section

/-- Embeds `mint::Point3<f32>`: three coordinates, a plain value. -/
structure Point3 where
  x : ℝ
  y : ℝ
  z : ℝ

/-- Embeds `mint::Point2<f32>`. -/
structure Point2 where
  x : ℝ
  y : ℝ

/-- Embeds `Attitude`: yaw/pitch/roll Euler angles in radians. -/
structure Attitude where
  yaw : ℝ
  pitch : ℝ
  roll : ℝ

/-- Embeds `CameraSettings`: field of view in degrees and camera distance. -/
structure CameraSettings where
  fov_angle_deg : ℝ
  camera_dist : ℝ

/-- The yaw rotation matrix (around the Z axis) built in `get_rotated_point`. -/
def yaw_matrix (attitude : Attitude) : Matrix (Fin 3) (Fin 3) ℝ :=
  !![Real.cos attitude.yaw, -Real.sin attitude.yaw, 0;
     Real.sin attitude.yaw, Real.cos attitude.yaw, 0;
     0, 0, 1]

/-- The pitch rotation matrix (around the Y axis) built in `get_rotated_point`. -/
def pitch_matrix (attitude : Attitude) : Matrix (Fin 3) (Fin 3) ℝ :=
  !![Real.cos attitude.pitch, 0, Real.sin attitude.pitch;
     0, 1, 0;
     -Real.sin attitude.pitch, 0, Real.cos attitude.pitch]

/-- The roll rotation matrix (around the X axis) built in `get_rotated_point`. -/
def roll_matrix (attitude : Attitude) : Matrix (Fin 3) (Fin 3) ℝ :=
  !![1, 0, 0;
     0, Real.cos attitude.roll, -Real.sin attitude.roll;
     0, Real.sin attitude.roll, Real.cos attitude.roll]

/-- The `multiply_matrix_point` closure of `get_rotated_point`: multiply a
3x3 matrix with a point given as a triple, componentwise as in the source. -/
def multiply_matrix_point (matrix : Matrix (Fin 3) (Fin 3) ℝ)
    (point : ℝ × ℝ × ℝ) : ℝ × ℝ × ℝ :=
  (point.1 * matrix 0 0 + point.2.1 * matrix 0 1 + point.2.2 * matrix 0 2,
   point.1 * matrix 1 0 + point.2.1 * matrix 1 1 + point.2.2 * matrix 1 2,
   point.1 * matrix 2 0 + point.2.1 * matrix 2 1 + point.2.2 * matrix 2 2)

/-- Embeds `get_rotated_point`: apply the rotations in order
roll -> pitch -> yaw, exactly as in the source. -/
def get_rotated_point (point : Point3) (attitude : Attitude) : Point3 :=
  let r1 := multiply_matrix_point (roll_matrix attitude) (point.x, point.y, point.z)
  let r2 := multiply_matrix_point (pitch_matrix attitude) r1
  let r3 := multiply_matrix_point (yaw_matrix attitude) r2
  ⟨r3.1, r3.2.1, r3.2.2⟩

/-- Embeds `project_3d_to_2d`: perspective projection with the zero-depth
fallback `scale = 1.0`.  Rust's `f32::to_radians` is `x * (π / 180)`. -/
def project_3d_to_2d (point : Point3) (camera_settings : CameraSettings) : Point2 :=
  let fov_angle_rad := camera_settings.fov_angle_deg * (Real.pi / 180)
  let half_fov := fov_angle_rad / 2
  let half_fov_tan := Real.tan half_fov
  let depth := point.z + camera_settings.camera_dist
  let scale := if depth ≠ 0 then camera_settings.camera_dist / depth else 1
  ⟨point.x * scale / half_fov_tan, point.y * scale / half_fov_tan⟩

/-- Embeds `Cube`: the fixed array of 8 vertices, in the source's order
(front bottom left, front bottom right, front top right, front top left,
back bottom left, back bottom right, back top right, back top left). -/
structure Cube where
  vertices : List Point3

/-- Embeds `Cube::default()`. -/
def Cube.default : Cube :=
  ⟨[⟨-1, -1, -1⟩, ⟨1, -1, -1⟩, ⟨1, 1, -1⟩, ⟨-1, 1, -1⟩,
    ⟨-1, -1, 1⟩, ⟨1, -1, 1⟩, ⟨1, 1, 1⟩, ⟨-1, 1, 1⟩]⟩

/-- Embeds `CubeState`: camera settings, cube, cursor and viewport size.
The cursor and screen sizes are idealised `ℝ` here; the cursor-update
arithmetic, which needs an executable model, lives on `QCubeState` below. -/
structure CubeState where
  camera_settings : CameraSettings
  cube : Cube
  cursor : Point2
  screen_width : ℝ
  screen_height : ℝ

/-- The edge array defined inside `CubeState::draw`: front face, back face,
then the four connecting edges, as vertex-index pairs. -/
def edges : List (ℕ × ℕ) :=
  [(0, 1), (1, 2), (2, 3), (3, 0),
   (4, 5), (5, 6), (6, 7), (7, 4),
   (0, 4), (1, 5), (2, 6), (3, 7)]

/-- Embeds the geometric part of `CubeState::draw`: derive the attitude from
the cursor (`yaw = 0`, `pitch = cursor_x_ratio`, `roll = cursor_y_ratio`),
then map every cube vertex through rotation, projection and the screen-space
translation, in the source's three `.map` stages. -/
def projected_vertices (s : CubeState) : List Point2 :=
  let cursor_x_ratio := (s.cursor.x / s.screen_width) * Real.pi
  let cursor_y_ratio := (s.cursor.y / s.screen_height) * Real.pi
  let attitude : Attitude := ⟨0, cursor_x_ratio, cursor_y_ratio⟩
  ((s.cube.vertices.map (fun point_3d => get_rotated_point point_3d attitude)).map
      (fun point_3d => project_3d_to_2d point_3d s.camera_settings)).map
    (fun point_2d =>
      ⟨point_2d.x + s.screen_width / 2, point_2d.y + s.screen_height / 2⟩)

/-! Spec-side definitions, written from the claims' words, to be compared
with the code-side definitions above. -/

/-- The roll (x-axis) matrix exactly as the specification prints it:
`[[1,0,0],[0,cos θ,-sin θ],[0,sin θ,cos θ]]`. -/
def spec_roll_matrix (θ : ℝ) : Matrix (Fin 3) (Fin 3) ℝ :=
  !![1, 0, 0; 0, Real.cos θ, -Real.sin θ; 0, Real.sin θ, Real.cos θ]

/-- The pitch (y-axis) matrix exactly as the specification prints it:
`[[cos θ,0,sin θ],[0,1,0],[-sin θ,0,cos θ]]`. -/
def spec_pitch_matrix (θ : ℝ) : Matrix (Fin 3) (Fin 3) ℝ :=
  !![Real.cos θ, 0, Real.sin θ; 0, 1, 0; -Real.sin θ, 0, Real.cos θ]

/-- The yaw (z-axis) matrix exactly as the specification prints it:
`[[cos θ,-sin θ,0],[sin θ,cos θ,0],[0,0,1]]`. -/
def spec_yaw_matrix (θ : ℝ) : Matrix (Fin 3) (Fin 3) ℝ :=
  !![Real.cos θ, -Real.sin θ, 0; Real.sin θ, Real.cos θ, 0; 0, 0, 1]

/-- Claim C1's rotation: apply the roll matrix to the point, then the pitch
matrix, then the yaw matrix, each application being the standard
matrix-vector product (`Matrix.mulVec`). -/
def spec_rotate (p : Point3) (a : Attitude) : Fin 3 → ℝ :=
  Matrix.mulVec (spec_yaw_matrix a.yaw)
    (Matrix.mulVec (spec_pitch_matrix a.pitch)
      (Matrix.mulVec (spec_roll_matrix a.roll) ![p.x, p.y, p.z]))

/-- Claim C3's projection, written from the spec's words: `half_fov_tan =
tan(radians(fov_angle_deg) / 2)`, `depth = point.z + camera_dist`,
`scale = camera_dist / depth` if `depth != 0` else `1.0`, output
`(point.x * scale / half_fov_tan, point.y * scale / half_fov_tan)`. -/
def spec_project (point : Point3) (camera : CameraSettings) : Point2 :=
  let half_fov_tan := Real.tan (camera.fov_angle_deg * (Real.pi / 180) / 2)
  let depth := point.z + camera.camera_dist
  let scale := if depth ≠ 0 then camera.camera_dist / depth else 1
  ⟨point.x * scale / half_fov_tan, point.y * scale / half_fov_tan⟩

/-- Sum of squared components of a coordinate triple. -/
def normSq3 (t : ℝ × ℝ × ℝ) : ℝ := t.1 ^ 2 + t.2.1 ^ 2 + t.2.2 ^ 2

/-- The Euclidean norm of a 3D point. -/
def euclidean_norm (p : Point3) : ℝ := Real.sqrt (p.x ^ 2 + p.y ^ 2 + p.z ^ 2)

/-- The screen-space point claim C2 predicts for one cube vertex: rotate by
the cursor-derived orientation (`yaw = 0`, `pitch = (cursor.x / screen_width) * π`,
`roll = (cursor.y / screen_height) * π`), project with the camera settings,
then translate by `(screen_width / 2, screen_height / 2)`. -/
def spec_screen_point (s : CubeState) (v : Point3) : Point2 :=
  let attitude : Attitude :=
    ⟨0, (s.cursor.x / s.screen_width) * Real.pi, (s.cursor.y / s.screen_height) * Real.pi⟩
  let q := project_3d_to_2d (get_rotated_point v attitude) s.camera_settings
  ⟨q.x + s.screen_width / 2, q.y + s.screen_height / 2⟩

end

/-! ### Cursor model (exact, executable, over `ℚ`)

`CubeState::update_cursor` only reads and writes the cursor and the screen
sizes, and its arithmetic is `+` and Rust's `%` on `f32`.  Rust's `%` is the
remainder with the sign of the dividend (truncation toward zero), so we embed
it exactly over `ℚ`. -/

/-- The quotient `a / b` truncated toward zero, computed on the
cross-multiplied integer fraction (`a / b = (a.num * b.den) / (a.den * b.num)`)
with `Int.tdiv`, the integer division that truncates toward zero, so that the
definition reduces in the kernel.  `truncQuot_eq_floor` below relates it to
`⌊a / b⌋` on the nonnegative range used by the program. -/
def truncQuot (a b : ℚ) : ℤ :=
  Int.tdiv (a.num * b.den) (a.den * b.num)

/-- Rust's `%` on floats (idealised over `ℚ`): `a - b * trunc (a / b)`,
the remainder carrying the sign of the dividend `a`.
(A zero divisor, NaN in Rust, is outside the modelled domain.) -/
def fpRem (a b : ℚ) : ℚ :=
  a - b * truncQuot a b

/-- The mathematical modulo `a - b * ⌊a / b⌋`, which for `b > 0` always lands
in `[0, b)`.  This is the reading of "mod" in the specification's sentence
"guarantees the result always lies in `[0, screen_size)` regardless of sign
of the intermediate sum"; it is compared against the code's `fpRem` below. -/
def mathMod (a b : ℚ) : ℚ :=
  a - b * ⌊a / b⌋

/-- The key codes `update_cursor` distinguishes; `other` stands for every
key matched by the source's catch-all `_` arm. -/
inductive KeyCode where
  | up
  | down
  | left
  | right
  | other
deriving DecidableEq

/-- The cursor-relevant fields of `CubeState` (the camera settings and the
cube are neither read nor written by `update_cursor`), over `ℚ`. -/
structure QCubeState where
  cursor_x : ℚ
  cursor_y : ℚ
  screen_width : ℚ
  screen_height : ℚ
deriving DecidableEq

/-- The two assignment lines of `update_cursor`:
`cursor = (cursor + delta + screen_size) % screen_size` on each axis. -/
def QCubeState.apply_delta (s : QCubeState) (dx dy : ℚ) : QCubeState :=
  { s with
    cursor_x := fpRem (s.cursor_x + dx + s.screen_width) s.screen_width
    cursor_y := fpRem (s.cursor_y + dy + s.screen_height) s.screen_height }

/-- Embeds `CubeState::update_cursor`: pick the delta for the key (the early
return leaves the state unchanged on any other key), then update both axes. -/
def QCubeState.update_cursor (s : QCubeState) (key : KeyCode) : QCubeState :=
  match key with
  | .up => s.apply_delta 0 (-10)
  | .down => s.apply_delta 0 10
  | .left => s.apply_delta 10 0
  | .right => s.apply_delta (-10) 0
  | .other => s

/-- Claim C4's reading of the cursor contract, with `mod` read as the
specification glosses it (mathematical modulo, result in `[0, b)` for
`b > 0`): up → (0, -10), down → (0, +10), left → (+10, 0), right → (-10, 0),
new position `(current + delta + screen_size) mod screen_size` per axis,
any other input a no-op. -/
def spec_update_cursor (s : QCubeState) (key : KeyCode) : QCubeState :=
  match key with
  | .up => ⟨mathMod (s.cursor_x + 0 + s.screen_width) s.screen_width,
            mathMod (s.cursor_y + -10 + s.screen_height) s.screen_height,
            s.screen_width, s.screen_height⟩
  | .down => ⟨mathMod (s.cursor_x + 0 + s.screen_width) s.screen_width,
              mathMod (s.cursor_y + 10 + s.screen_height) s.screen_height,
              s.screen_width, s.screen_height⟩
  | .left => ⟨mathMod (s.cursor_x + 10 + s.screen_width) s.screen_width,
              mathMod (s.cursor_y + 0 + s.screen_height) s.screen_height,
              s.screen_width, s.screen_height⟩
  | .right => ⟨mathMod (s.cursor_x + -10 + s.screen_width) s.screen_width,
               mathMod (s.cursor_y + 0 + s.screen_height) s.screen_height,
               s.screen_width, s.screen_height⟩
  | .other => s

/-- Claim C4 as amended: the same delta table and no-op case, but with the
axis update being the truncated remainder (Rust's `%`) rather than the
mathematical modulo. -/
def spec_update_cursor_trunc (s : QCubeState) (key : KeyCode) : QCubeState :=
  match key with
  | .up => ⟨fpRem (s.cursor_x + 0 + s.screen_width) s.screen_width,
            fpRem (s.cursor_y + -10 + s.screen_height) s.screen_height,
            s.screen_width, s.screen_height⟩
  | .down => ⟨fpRem (s.cursor_x + 0 + s.screen_width) s.screen_width,
              fpRem (s.cursor_y + 10 + s.screen_height) s.screen_height,
              s.screen_width, s.screen_height⟩
  | .left => ⟨fpRem (s.cursor_x + 10 + s.screen_width) s.screen_width,
              fpRem (s.cursor_y + 0 + s.screen_height) s.screen_height,
              s.screen_width, s.screen_height⟩
  | .right => ⟨fpRem (s.cursor_x + -10 + s.screen_width) s.screen_width,
               fpRem (s.cursor_y + 0 + s.screen_height) s.screen_height,
               s.screen_width, s.screen_height⟩
  | .other => s

/-! ### Arithmetic facts about the truncated remainder -/

lemma den_mul_self (a : ℚ) : (a.den : ℚ) * a = (a.num : ℚ) := by
  have ha' : (a.den : ℚ) ≠ 0 := by exact_mod_cast a.den_nz
  have h := Rat.num_div_den a
  rw [div_eq_iff ha'] at h
  linarith [h]

lemma div_eq_cross (a b : ℚ) (hb : b ≠ 0) :
    a / b = ((a.num * b.den : ℤ) : ℚ) / ((a.den * b.num : ℤ) : ℚ) := by
  have ha' : (a.den : ℚ) ≠ 0 := by exact_mod_cast a.den_nz
  have hbn : (b.num : ℚ) ≠ 0 := by exact_mod_cast Rat.num_ne_zero.mpr hb
  have hq : ((a.den * b.num : ℤ) : ℚ) ≠ 0 := by
    push_cast
    exact mul_ne_zero ha' hbn
  rw [div_eq_div_iff hb hq]
  push_cast
  linear_combination ((b.num : ℚ)) * den_mul_self a - ((a.num : ℚ)) * den_mul_self b

/-- On a nonnegative dividend and positive divisor, the truncated quotient
agrees with the floor of the exact quotient. -/
lemma truncQuot_eq_floor (a b : ℚ) (ha : 0 ≤ a) (hb : 0 < b) :
    truncQuot a b = ⌊a / b⌋ := by
  have hanum : 0 ≤ a.num := Rat.num_nonneg.mpr ha
  have hbnum : 0 < b.num := Rat.num_pos.mpr hb
  have hden : 0 < (a.den : ℤ) := by exact_mod_cast a.pos
  have hp : 0 ≤ a.num * (b.den : ℤ) := by positivity
  have hq : 0 < (a.den : ℤ) * b.num := by positivity
  have hqn : ((a.den : ℤ) * b.num) = (((a.den * b.num.toNat : ℕ) : ℤ)) := by
    push_cast
    rw [Int.toNat_of_nonneg hbnum.le]
  have key : a / b = ((a.num * b.den : ℤ) : ℚ) / (((a.den * b.num.toNat : ℕ) : ℤ) : ℚ) := by
    rw [div_eq_cross a b hb.ne', hqn]
  rw [truncQuot, Int.tdiv_eq_ediv hp hq.le, key]
  rw [show ((((a.den * b.num.toNat : ℕ) : ℤ)) : ℚ) = (((a.den * b.num.toNat : ℕ)) : ℚ) by
    push_cast
    ring]
  rw [Rat.floor_intCast_div_natCast]
  rw [hqn]

/-- On a nonnegative dividend and positive divisor, the truncated remainder
is the divisor times the fractional part of the quotient. -/
lemma fpRem_of_nonneg (a b : ℚ) (ha : 0 ≤ a) (hb : 0 < b) :
    fpRem a b = b * Int.fract (a / b) := by
  have hba : b * (a / b) = a := by
    field_simp
  rw [fpRem, truncQuot_eq_floor a b ha hb, Int.fract, mul_sub, hba]

lemma fpRem_nonneg (a b : ℚ) (ha : 0 ≤ a) (hb : 0 < b) : 0 ≤ fpRem a b := by
  rw [fpRem_of_nonneg a b ha hb]
  exact mul_nonneg hb.le (Int.fract_nonneg _)

lemma fpRem_lt (a b : ℚ) (ha : 0 ≤ a) (hb : 0 < b) : fpRem a b < b := by
  rw [fpRem_of_nonneg a b ha hb]
  calc b * Int.fract (a / b) < b * 1 := mul_lt_mul_of_pos_left (Int.fract_lt_one _) hb
    _ = b := mul_one b

/-- Two values of `[0, b)` that differ by an integer multiple of `b`
are equal. -/
lemma eq_of_near_int_multiple {u v b : ℚ} (hu0 : 0 ≤ u) (hub : u < b)
    (hv0 : 0 ≤ v) (hvb : v < b) (k : ℤ) (h : u - v = b * k) : u = v := by
  have hb : 0 < b := lt_of_le_of_lt hv0 hvb
  have hk1 : (k : ℚ) < 1 := by
    by_contra hk
    push_neg at hk
    have : b * 1 ≤ b * k := mul_le_mul_of_nonneg_left hk hb.le
    nlinarith
  have hk2 : (-1 : ℚ) < k := by
    by_contra hk
    push_neg at hk
    have : b * (k : ℚ) ≤ b * (-1) := mul_le_mul_of_nonneg_left hk hb.le
    nlinarith
  have hk0 : k = 0 := by
    have h1 : k < 1 := by exact_mod_cast hk1
    have h2 : (-1 : ℤ) < k := by exact_mod_cast hk2
    omega
  rw [hk0] at h
  push_cast at h
  linarith

/-- Moving by `d₁` and then by `d₂ = -d₁` through the wraparound update is
the identity on a coordinate of `[0, W)`, provided `10 ≤ W` keeps every
intermediate dividend nonnegative. -/
lemma fpRem_roundtrip (x d₁ d₂ W : ℚ) (hx0 : 0 ≤ x) (hxW : x < W)
    (hW : 10 ≤ W) (h1l : -10 ≤ d₁) (h1u : d₁ ≤ 10) (h12 : d₁ + d₂ = 0) :
    fpRem (fpRem (x + d₁ + W) W + d₂ + W) W = x := by
  have hWpos : 0 < W := lt_of_lt_of_le (by norm_num) hW
  have ha1 : 0 ≤ x + d₁ + W := by linarith
  set y1 := fpRem (x + d₁ + W) W with hy1
  have hy1l : 0 ≤ y1 := fpRem_nonneg _ _ ha1 hWpos
  have hy1u : y1 < W := fpRem_lt _ _ ha1 hWpos
  have ha2 : 0 ≤ y1 + d₂ + W := by
    have : d₂ ≤ 10 := by linarith
    linarith
  set y2 := fpRem (y1 + d₂ + W) W with hy2
  have hy2l : 0 ≤ y2 := fpRem_nonneg _ _ ha2 hWpos
  have hy2u : y2 < W := fpRem_lt _ _ ha2 hWpos
  have e1 : y1 = (x + d₁ + W) - W * truncQuot (x + d₁ + W) W := rfl
  have e2 : y2 = (y1 + d₂ + W) - W * truncQuot (y1 + d₂ + W) W := rfl
  have hmul : y2 - x =
      W * ((2 - truncQuot (x + d₁ + W) W - truncQuot (y1 + d₂ + W) W : ℤ) : ℚ) := by
    push_cast
    rw [e2, e1]
    ring_nf
    linarith [h12]
  exact eq_of_near_int_multiple hy2l hy2u hx0 hxW _ hmul

/-! ### Norm-preservation helper lemmas -/

lemma roll_preserves_normSq3 (a : Attitude) (p : ℝ × ℝ × ℝ) :
    normSq3 (multiply_matrix_point (roll_matrix a) p) = normSq3 p := by
  simp only [normSq3, multiply_matrix_point, roll_matrix,
    Matrix.of_apply, Matrix.cons_val_zero, Matrix.cons_val_one, Matrix.cons_val_two,
    Matrix.head_cons, Matrix.tail_cons, Matrix.cons_val', Matrix.empty_val',
    Matrix.cons_val_fin_one, Matrix.head_fin_const]
  linear_combination (p.2.1 ^ 2 + p.2.2 ^ 2) * Real.sin_sq_add_cos_sq a.roll

lemma pitch_preserves_normSq3 (a : Attitude) (p : ℝ × ℝ × ℝ) :
    normSq3 (multiply_matrix_point (pitch_matrix a) p) = normSq3 p := by
  simp only [normSq3, multiply_matrix_point, pitch_matrix,
    Matrix.of_apply, Matrix.cons_val_zero, Matrix.cons_val_one, Matrix.cons_val_two,
    Matrix.head_cons, Matrix.tail_cons, Matrix.cons_val', Matrix.empty_val',
    Matrix.cons_val_fin_one, Matrix.head_fin_const]
  linear_combination (p.1 ^ 2 + p.2.2 ^ 2) * Real.sin_sq_add_cos_sq a.pitch

lemma yaw_preserves_normSq3 (a : Attitude) (p : ℝ × ℝ × ℝ) :
    normSq3 (multiply_matrix_point (yaw_matrix a) p) = normSq3 p := by
  simp only [normSq3, multiply_matrix_point, yaw_matrix,
    Matrix.of_apply, Matrix.cons_val_zero, Matrix.cons_val_one, Matrix.cons_val_two,
    Matrix.head_cons, Matrix.tail_cons, Matrix.cons_val', Matrix.empty_val',
    Matrix.cons_val_fin_one, Matrix.head_fin_const]
  linear_combination (p.1 ^ 2 + p.2.1 ^ 2) * Real.sin_sq_add_cos_sq a.yaw

/-! ### Claim theorems -/

/-- Claim C1 (confirmed): for every 3D point and every orientation,
`get_rotated_point` equals the application of the spec's roll matrix, then
its pitch matrix, then its yaw matrix, each as the standard matrix-vector
product. -/
theorem c1_rotation_composition (p : Point3) (a : Attitude) :
    ![(get_rotated_point p a).x, (get_rotated_point p a).y, (get_rotated_point p a).z] =
      spec_rotate p a := by
  have e1 : spec_rotate p a =
      Matrix.mulVec (spec_yaw_matrix a.yaw)
        (Matrix.mulVec (spec_pitch_matrix a.pitch)
          (Matrix.mulVec (spec_roll_matrix a.roll) ![p.x, p.y, p.z])) := rfl
  rw [e1]
  simp only [spec_yaw_matrix, spec_pitch_matrix, spec_roll_matrix,
    Matrix.cons_mulVec, Matrix.empty_mulVec, Matrix.cons_dotProduct,
    Matrix.dotProduct_empty, Matrix.head_cons, Matrix.tail_cons,
    Matrix.vecHead, Matrix.vecTail, Function.comp, Matrix.cons_val_zero,
    Matrix.cons_val_one, add_zero, zero_add]
  funext i
  fin_cases i <;>
    simp [get_rotated_point, multiply_matrix_point,
      yaw_matrix, pitch_matrix, roll_matrix, Matrix.of_apply, Matrix.cons_val_zero,
      Matrix.cons_val_one, Matrix.cons_val_two, Matrix.head_cons, Matrix.tail_cons,
      Matrix.vecHead, Matrix.vecTail] <;>
    ring

/-- Claim C2 (confirmed): the per-frame draw derivation yields exactly 8
screen-space points, the i-th being the i-th cube vertex rotated by the
cursor-derived orientation (`yaw = 0`, `pitch = (cursor.x / screen_width) * π`,
`roll = (cursor.y / screen_height) * π`), projected with the camera settings,
then translated by `(screen_width / 2, screen_height / 2)`. -/
theorem c2_draw_pipeline (cam : CameraSettings) (cursor : Point2) (W H : ℝ) :
    (projected_vertices ⟨cam, Cube.default, cursor, W, H⟩).length = 8 ∧
    ∀ i : Fin 8, (projected_vertices ⟨cam, Cube.default, cursor, W, H⟩)[(i : ℕ)]? =
      (Cube.default.vertices[(i : ℕ)]?).map
        (spec_screen_point ⟨cam, Cube.default, cursor, W, H⟩) := by
  constructor
  · simp [projected_vertices, Cube.default]
  · intro i
    fin_cases i <;>
      simp [projected_vertices, Cube.default, spec_screen_point]

/-- Claim C3 (confirmed): `project_3d_to_2d` returns
`(point.x * scale / half_fov_tan, point.y * scale / half_fov_tan)` with
`half_fov_tan = tan(radians(fov_angle_deg) / 2)`, `depth = point.z + camera_dist`
and `scale = camera_dist / depth` when `depth ≠ 0`, else `scale = 1.0`. -/
theorem c3_projection_formula (p : Point3) (c : CameraSettings) :
    project_3d_to_2d p c = spec_project p c := rfl

/-- Claim C4, counterexample: with screen size 7 (smaller than the step 10)
and the cursor at the origin, a `right` key gives cursor x `-3` in the code,
while the claim's formula `(current + delta + screen_size) mod screen_size`
(mod as the specification reads it, always landing in `[0, screen_size)`)
gives `4`; the code disagrees with the claimed update at this input. -/
theorem c4_counterexample :
    (QCubeState.update_cursor ⟨0, 0, 7, 7⟩ .right) ≠ spec_update_cursor ⟨0, 0, 7, 7⟩ .right := by
  intro h
  have hx := congrArg QCubeState.cursor_x h
  have hl : (QCubeState.update_cursor ⟨0, 0, 7, 7⟩ KeyCode.right).cursor_x = -3 := by
    simp only [QCubeState.update_cursor, QCubeState.apply_delta, fpRem, truncQuot]
    norm_num
    decide
  have hr : (spec_update_cursor ⟨0, 0, 7, 7⟩ KeyCode.right).cursor_x = 4 := by
    simp only [spec_update_cursor, mathMod]
    norm_num
  rw [hl, hr] at hx
  norm_num at hx

/-- Claim C4 as amended (proved): `update_cursor` applies the deltas
up → (0, -10), down → (0, +10), left → (+10, 0), right → (-10, 0), computing
the new position per axis as the truncated remainder (Rust's `%`)
`(current + delta + screen_size) % screen_size`, and any other input leaves
the cursor unchanged. -/
theorem c4_update_cursor_amended (s : QCubeState) (key : KeyCode) :
    s.update_cursor key = spec_update_cursor_trunc s key := by
  cases key <;> rfl

/-- Claim C5, counterexample: with the positive screen size 7 and the cursor
at the in-range origin, a `right` key yields cursor x `-3`, outside
`[0, screen_width)`; the wraparound guarantee fails when the intermediate
sum is negative. -/
theorem c5_counterexample :
    (0 : ℚ) < 7 ∧ (0 : ℚ) ≤ 0 ∧ (0 : ℚ) < 7 ∧
    (QCubeState.update_cursor ⟨0, 0, 7, 7⟩ .right).cursor_x = -3 ∧
    ¬ (0 ≤ (QCubeState.update_cursor ⟨0, 0, 7, 7⟩ .right).cursor_x) := by
  have hl : (QCubeState.update_cursor ⟨0, 0, 7, 7⟩ KeyCode.right).cursor_x = -3 := by
    simp only [QCubeState.update_cursor, QCubeState.apply_delta, fpRem, truncQuot]
    norm_num
    decide
  refine ⟨by norm_num, le_refl 0, by norm_num, hl, ?_⟩
  rw [hl]
  norm_num

/-- Claim C5 as amended (proved): whenever both screen sizes are at least the
step size 10 and the cursor is in `[0, screen_width) × [0, screen_height)`,
`update_cursor` keeps the cursor in that box for every input, recognized
or not. -/
theorem c5_cursor_in_range_amended (s : QCubeState) (key : KeyCode)
    (hW : 10 ≤ s.screen_width) (hH : 10 ≤ s.screen_height)
    (hx0 : 0 ≤ s.cursor_x) (hxW : s.cursor_x < s.screen_width)
    (hy0 : 0 ≤ s.cursor_y) (hyH : s.cursor_y < s.screen_height) :
    0 ≤ (s.update_cursor key).cursor_x ∧
    (s.update_cursor key).cursor_x < s.screen_width ∧
    0 ≤ (s.update_cursor key).cursor_y ∧
    (s.update_cursor key).cursor_y < s.screen_height := by
  have hWpos : 0 < s.screen_width := lt_of_lt_of_le (by norm_num) hW
  have hHpos : 0 < s.screen_height := lt_of_lt_of_le (by norm_num) hH
  cases key <;>
    simp only [QCubeState.update_cursor, QCubeState.apply_delta] <;>
    first
    | exact ⟨hx0, hxW, hy0, hyH⟩
    | exact ⟨fpRem_nonneg _ _ (by linarith) hWpos, fpRem_lt _ _ (by linarith) hWpos,
        fpRem_nonneg _ _ (by linarith) hHpos, fpRem_lt _ _ (by linarith) hHpos⟩

/-- Witness for the amended claim C5 at an 800x600 screen with the cursor at
its center, moving up. -/
theorem c5_witness :
    0 ≤ ((⟨400, 300, 800, 600⟩ : QCubeState).update_cursor .up).cursor_x ∧
    ((⟨400, 300, 800, 600⟩ : QCubeState).update_cursor .up).cursor_x < 800 ∧
    0 ≤ ((⟨400, 300, 800, 600⟩ : QCubeState).update_cursor .up).cursor_y ∧
    ((⟨400, 300, 800, 600⟩ : QCubeState).update_cursor .up).cursor_y < 600 :=
  c5_cursor_in_range_amended ⟨400, 300, 800, 600⟩ .up (by decide) (by decide) (by decide)
    (by decide) (by decide) (by decide)

/-- Claim C6 (confirmed): the 90-degree rotations hit the specified fixed
points within tolerance `1e-6 = 1 / 1000000`: yaw 90° sends `(1,0,0)` to
`(0,1,0)`; pitch 90° sends `(1,0,0)` to `(0,0,-1)`; roll 90° sends `(0,1,0)`
to `(0,0,1)`; combined yaw 90° and pitch 90° send `(1,0,0)` to `(0,0,-1)`.
(The equalities are exact in the real-number model.) -/
theorem c6_ninety_degree_fixed_points :
    (abs ((get_rotated_point ⟨1, 0, 0⟩ ⟨Real.pi / 2, 0, 0⟩).x - 0) < 1 / 1000000 ∧
     abs ((get_rotated_point ⟨1, 0, 0⟩ ⟨Real.pi / 2, 0, 0⟩).y - 1) < 1 / 1000000 ∧
     abs ((get_rotated_point ⟨1, 0, 0⟩ ⟨Real.pi / 2, 0, 0⟩).z - 0) < 1 / 1000000) ∧
    (abs ((get_rotated_point ⟨1, 0, 0⟩ ⟨0, Real.pi / 2, 0⟩).x - 0) < 1 / 1000000 ∧
     abs ((get_rotated_point ⟨1, 0, 0⟩ ⟨0, Real.pi / 2, 0⟩).y - 0) < 1 / 1000000 ∧
     abs ((get_rotated_point ⟨1, 0, 0⟩ ⟨0, Real.pi / 2, 0⟩).z - -1) < 1 / 1000000) ∧
    (abs ((get_rotated_point ⟨0, 1, 0⟩ ⟨0, 0, Real.pi / 2⟩).x - 0) < 1 / 1000000 ∧
     abs ((get_rotated_point ⟨0, 1, 0⟩ ⟨0, 0, Real.pi / 2⟩).y - 0) < 1 / 1000000 ∧
     abs ((get_rotated_point ⟨0, 1, 0⟩ ⟨0, 0, Real.pi / 2⟩).z - 1) < 1 / 1000000) ∧
    (abs ((get_rotated_point ⟨1, 0, 0⟩ ⟨Real.pi / 2, Real.pi / 2, 0⟩).x - 0) < 1 / 1000000 ∧
     abs ((get_rotated_point ⟨1, 0, 0⟩ ⟨Real.pi / 2, Real.pi / 2, 0⟩).y - 0) < 1 / 1000000 ∧
     abs ((get_rotated_point ⟨1, 0, 0⟩ ⟨Real.pi / 2, Real.pi / 2, 0⟩).z - -1) < 1 / 1000000) := by
  have h1 : get_rotated_point ⟨1, 0, 0⟩ ⟨Real.pi / 2, 0, 0⟩ = ⟨0, 1, 0⟩ := by
    simp [get_rotated_point, multiply_matrix_point, yaw_matrix, pitch_matrix, roll_matrix,
      Matrix.of_apply, Matrix.cons_val_zero, Matrix.cons_val_one, Matrix.cons_val_two,
      Matrix.head_cons, Matrix.tail_cons, Matrix.vecHead, Matrix.vecTail]
  have h2 : get_rotated_point ⟨1, 0, 0⟩ ⟨0, Real.pi / 2, 0⟩ = ⟨0, 0, -1⟩ := by
    simp [get_rotated_point, multiply_matrix_point, yaw_matrix, pitch_matrix, roll_matrix,
      Matrix.of_apply, Matrix.cons_val_zero, Matrix.cons_val_one, Matrix.cons_val_two,
      Matrix.head_cons, Matrix.tail_cons, Matrix.vecHead, Matrix.vecTail]
  have h3 : get_rotated_point ⟨0, 1, 0⟩ ⟨0, 0, Real.pi / 2⟩ = ⟨0, 0, 1⟩ := by
    simp [get_rotated_point, multiply_matrix_point, yaw_matrix, pitch_matrix, roll_matrix,
      Matrix.of_apply, Matrix.cons_val_zero, Matrix.cons_val_one, Matrix.cons_val_two,
      Matrix.head_cons, Matrix.tail_cons, Matrix.vecHead, Matrix.vecTail]
  have h4 : get_rotated_point ⟨1, 0, 0⟩ ⟨Real.pi / 2, Real.pi / 2, 0⟩ = ⟨0, 0, -1⟩ := by
    simp [get_rotated_point, multiply_matrix_point, yaw_matrix, pitch_matrix, roll_matrix,
      Matrix.of_apply, Matrix.cons_val_zero, Matrix.cons_val_one, Matrix.cons_val_two,
      Matrix.head_cons, Matrix.tail_cons, Matrix.vecHead, Matrix.vecTail]
  rw [h1, h2, h3, h4]
  norm_num

/-- Claim C7, counterexample: with screen size 7 and the in-range cursor
`(4, 4)`, moving down and then up does not return the cursor to `(4, 4)`
(it ends at y = `-3`). -/
theorem c7_counterexample :
    (0 : ℚ) ≤ 4 ∧ (4 : ℚ) < 7 ∧
    (QCubeState.update_cursor (QCubeState.update_cursor ⟨4, 4, 7, 7⟩ .down) .up) ≠
      ⟨4, 4, 7, 7⟩ := by
  refine ⟨by norm_num, by norm_num, ?_⟩
  intro h
  have hy := congrArg QCubeState.cursor_y h
  simp only [QCubeState.update_cursor, QCubeState.apply_delta, fpRem, truncQuot] at hy
  norm_num at hy
  rw [show Int.tdiv (21 : ℤ) 7 = 3 from by decide] at hy
  norm_num at hy
  rw [show Int.tdiv (3 : ℤ) 7 = 0 from by decide] at hy
  norm_num at hy

/-- Claim C7 as amended (proved): whenever both screen sizes are at least the
step size 10 and the cursor is in `[0, screen_width) × [0, screen_height)`,
applying `update_cursor` with one direction and then its opposite returns
the cursor to its original position, for all four direction pairs. -/
theorem c7_opposite_moves_roundtrip_amended (s : QCubeState)
    (hW : 10 ≤ s.screen_width) (hH : 10 ≤ s.screen_height)
    (hx0 : 0 ≤ s.cursor_x) (hxW : s.cursor_x < s.screen_width)
    (hy0 : 0 ≤ s.cursor_y) (hyH : s.cursor_y < s.screen_height) :
    (s.update_cursor .up).update_cursor .down = s ∧
    (s.update_cursor .down).update_cursor .up = s ∧
    (s.update_cursor .left).update_cursor .right = s ∧
    (s.update_cursor .right).update_cursor .left = s := by
  obtain ⟨x, y, W, H⟩ := s
  simp only [QCubeState.update_cursor, QCubeState.apply_delta, QCubeState.mk.injEq]
  refine ⟨⟨?_, ?_, trivial, trivial⟩, ⟨?_, ?_, trivial, trivial⟩, ⟨?_, ?_, trivial, trivial⟩,
    ⟨?_, ?_, trivial, trivial⟩⟩
  · exact fpRem_roundtrip x 0 0 W hx0 hxW hW (by norm_num) (by norm_num) (by norm_num)
  · exact fpRem_roundtrip y (-10) 10 H hy0 hyH hH (by norm_num) (by norm_num) (by norm_num)
  · exact fpRem_roundtrip x 0 0 W hx0 hxW hW (by norm_num) (by norm_num) (by norm_num)
  · exact fpRem_roundtrip y 10 (-10) H hy0 hyH hH (by norm_num) (by norm_num) (by norm_num)
  · exact fpRem_roundtrip x 10 (-10) W hx0 hxW hW (by norm_num) (by norm_num) (by norm_num)
  · exact fpRem_roundtrip y 0 0 H hy0 hyH hH (by norm_num) (by norm_num) (by norm_num)
  · exact fpRem_roundtrip x (-10) 10 W hx0 hxW hW (by norm_num) (by norm_num) (by norm_num)
  · exact fpRem_roundtrip y 0 0 H hy0 hyH hH (by norm_num) (by norm_num) (by norm_num)

/-- Witness for the amended claim C7 at an 800x600 screen with the cursor at
its center. -/
theorem c7_witness :
    ((⟨400, 300, 800, 600⟩ : QCubeState).update_cursor .up).update_cursor .down =
      (⟨400, 300, 800, 600⟩ : QCubeState) ∧
    ((⟨400, 300, 800, 600⟩ : QCubeState).update_cursor .down).update_cursor .up =
      (⟨400, 300, 800, 600⟩ : QCubeState) ∧
    ((⟨400, 300, 800, 600⟩ : QCubeState).update_cursor .left).update_cursor .right =
      (⟨400, 300, 800, 600⟩ : QCubeState) ∧
    ((⟨400, 300, 800, 600⟩ : QCubeState).update_cursor .right).update_cursor .left =
      (⟨400, 300, 800, 600⟩ : QCubeState) :=
  c7_opposite_moves_roundtrip_amended ⟨400, 300, 800, 600⟩ (by decide) (by decide)
    (by decide) (by decide) (by decide) (by decide)

/-- Claim C8 (confirmed): the cube model has exactly 8 vertices with every
coordinate in `{-1, 1}`, exactly 12 edges with both endpoints in `[0, 8)`,
and every vertex index appears in at least 3 edges. -/
theorem c8_cube_model_invariant :
    Cube.default.vertices.length = 8 ∧
    List.Forall (fun v : Point3 =>
      (v.x = -1 ∨ v.x = 1) ∧ (v.y = -1 ∨ v.y = 1) ∧ (v.z = -1 ∨ v.z = 1))
      Cube.default.vertices ∧
    edges.length = 12 ∧
    List.Forall (fun e => e.1 < 8 ∧ e.2 < 8) edges ∧
    ∀ i : Fin 8, 3 ≤ edges.countP (fun e => e.1 == i.val || e.2 == i.val) := by
  refine ⟨rfl, ?_, rfl, by decide, by decide⟩
  simp [Cube.default, List.Forall]

/-- Claim C9 (confirmed): the projection is total with its one division
guarded — at zero depth it falls back to scale 1, otherwise it divides by the
nonzero depth; there is no reachable error branch. -/
theorem c9_geometry_total_guarded (p : Point3) (c : CameraSettings) :
    (p.z + c.camera_dist = 0 →
      project_3d_to_2d p c =
        ⟨p.x / Real.tan (c.fov_angle_deg * (Real.pi / 180) / 2),
         p.y / Real.tan (c.fov_angle_deg * (Real.pi / 180) / 2)⟩) ∧
    (p.z + c.camera_dist ≠ 0 →
      project_3d_to_2d p c =
        ⟨p.x * (c.camera_dist / (p.z + c.camera_dist)) /
            Real.tan (c.fov_angle_deg * (Real.pi / 180) / 2),
         p.y * (c.camera_dist / (p.z + c.camera_dist)) /
            Real.tan (c.fov_angle_deg * (Real.pi / 180) / 2)⟩) := by
  constructor
  · intro h
    simp [project_3d_to_2d, h]
  · intro h
    simp [project_3d_to_2d, h]

/-- Witness for claim C9: both branches instantiated — the origin with camera
distance 0 hits the zero-depth fallback, and with camera distance 10 the
regular scale. -/
theorem c9_witness :
    ((0 : ℝ) + 0 = 0 ∧
      project_3d_to_2d ⟨0, 0, 0⟩ ⟨90, 0⟩ =
        ⟨0 / Real.tan ((90 : ℝ) * (Real.pi / 180) / 2),
         0 / Real.tan ((90 : ℝ) * (Real.pi / 180) / 2)⟩) ∧
    ((0 : ℝ) + 10 ≠ 0 ∧
      project_3d_to_2d ⟨0, 0, 0⟩ ⟨90, 10⟩ =
        ⟨0 * ((10 : ℝ) / ((0 : ℝ) + 10)) / Real.tan ((90 : ℝ) * (Real.pi / 180) / 2),
         0 * ((10 : ℝ) / ((0 : ℝ) + 10)) / Real.tan ((90 : ℝ) * (Real.pi / 180) / 2)⟩) :=
  ⟨⟨by simp, (c9_geometry_total_guarded ⟨0, 0, 0⟩ ⟨90, 0⟩).1 (by simp)⟩,
   ⟨by simp, (c9_geometry_total_guarded ⟨0, 0, 0⟩ ⟨90, 10⟩).2 (by simp)⟩⟩

/-- Claim C10 (confirmed): in exact arithmetic the composed roll-pitch-yaw
transform is an isometry — the Euclidean norm of the rotated point equals
the Euclidean norm of the input point. -/
theorem c10_rotation_preserves_norm (p : Point3) (a : Attitude) :
    euclidean_norm (get_rotated_point p a) = euclidean_norm p := by
  unfold euclidean_norm
  congr 1
  have key : ∀ q : ℝ × ℝ × ℝ,
      normSq3 (multiply_matrix_point (yaw_matrix a)
        (multiply_matrix_point (pitch_matrix a)
          (multiply_matrix_point (roll_matrix a) q))) = normSq3 q := by
    intro q
    rw [yaw_preserves_normSq3, pitch_preserves_normSq3, roll_preserves_normSq3]
  have h := key (p.x, p.y, p.z)
  simpa [get_rotated_point, normSq3] using h
